import Mathlib

set_option maxHeartbeats 1000000

/-!
Shallow embedding of the AI_LMS mobile client (React Native front end).

The development models, directly from the TypeScript source:
  * the generic HTTP request wrapper of frontend/services/api.ts;
  * the text-extraction and batch-list helpers of app/(tabs)/vetting.tsx;
  * the rubric-creation and generation-polling logic of app/(tabs)/generate.tsx;
  * the syllabus-save handler of app/(tabs)/_layout.tsx;
  * the training-status poller of the TrainingDashboard component.

JavaScript runtime values are modelled by the inductive type JSVal below.
Numbers are modelled as integers (the code under scrutiny only manipulates
integral counts, percentages and ids).  Platform builtins used by the source
(String(), JSON.parse, JSON.stringify, String.prototype.trim, parseInt,
String.prototype.replace on the concrete patterns that appear) are modelled
by executable Lean functions.
-/

/-- A JavaScript runtime value as handled by the client code: null, undefined,
booleans, numbers (modelled as integers), strings, arrays and plain objects
(association lists of string keys to values). -/
inductive JSVal where
  | null : JSVal
  | undef : JSVal
  | bool : Bool → JSVal
  | num : Int → JSVal
  | str : String → JSVal
  | arr : List JSVal → JSVal
  | obj : List (String × JSVal) → JSVal

/-- JavaScript truthiness: null, undefined, false, 0 and the empty string are
falsy; every other value (including any array or object) is truthy. -/
def truthy : JSVal → Bool
  | JSVal.null => false
  | JSVal.undef => false
  | JSVal.bool b => b
  | JSVal.num n => decide (n ≠ 0)
  | JSVal.str s => decide (s ≠ "")
  | JSVal.arr _ => true
  | JSVal.obj _ => true

/-- Property lookup in an association list, later entries shadowing earlier
ones (the behaviour of JSON.parse for duplicate keys). -/
def lookupLast : List (String × JSVal) → String → Option JSVal
  | [], _ => none
  | f :: fs, k =>
    match lookupLast fs k with
    | some v => some v
    | none => if f.1 = k then some f.2 else none

/-- JavaScript property access v[k]: defined (up to Option) only on objects. -/
def getField : JSVal → String → Option JSVal
  | JSVal.obj fs, k => lookupLast fs k
  | _, _ => none

mutual

/-- Model of the JavaScript String() conversion / template-literal
interpolation for the values the client manipulates. -/
def jsString : JSVal → String
  | JSVal.null => "null"
  | JSVal.undef => "undefined"
  | JSVal.bool b => cond b "true" "false"
  | JSVal.num n => toString n
  | JSVal.str s => s
  | JSVal.arr xs => jsStringElems xs
  | JSVal.obj _ => "[object Object]"

/-- Array.prototype.toString: elements joined with commas, null and undefined
rendering as the empty string. -/
def jsStringElems : List JSVal → String
  | [] => ""
  | [v] => jsStringElem v
  | v :: vs => jsStringElem v ++ "," ++ jsStringElems vs

/-- One array element as rendered by Array.prototype.join. -/
def jsStringElem : JSVal → String
  | JSVal.null => ""
  | JSVal.undef => ""
  | v => jsString v

end

/-- Escape a string body for JSON output (quote and backslash only; enough
for the values this client renders). -/
def escChars : List Char → List Char
  | [] => []
  | c :: cs =>
    if c = Char.ofNat 34 ∨ c = Char.ofNat 92 then Char.ofNat 92 :: c :: escChars cs
    else c :: escChars cs

/-- A string rendered as a JSON string literal. -/
def jsonQuote (s : String) : String :=
  String.mk (Char.ofNat 34 :: escChars s.data) ++ String.mk [Char.ofNat 34]

mutual

/-- Model of JSON.stringify for the values this client renders (compact form;
the source passes an indentation argument that only affects whitespace,
which no claim depends on).  undefined is rendered as null inside arrays and
its fields are dropped inside objects, as in JavaScript. -/
def jsonStringify : JSVal → String
  | JSVal.null => "null"
  | JSVal.undef => "null"
  | JSVal.bool b => cond b "true" "false"
  | JSVal.num n => toString n
  | JSVal.str s => jsonQuote s
  | JSVal.arr xs => "[" ++ String.intercalate "," (stringifyElemList xs) ++ "]"
  | JSVal.obj fs => "\x7b" ++ String.intercalate "," (stringifyFieldList fs) ++ "\x7d"

/-- Rendered array elements of JSON.stringify. -/
def stringifyElemList : List JSVal → List String
  | [] => []
  | v :: vs => jsonStringify v :: stringifyElemList vs

/-- Rendered object fields of JSON.stringify, undefined values omitted. -/
def stringifyFieldList : List (String × JSVal) → List String
  | [] => []
  | (_, JSVal.undef) :: fs => stringifyFieldList fs
  | (k, v) :: fs => (jsonQuote k ++ ":" ++ jsonStringify v) :: stringifyFieldList fs

end

/-- The whitespace characters recognised by the trim model (space, newline,
tab, carriage return). -/
def jsWs (c : Char) : Bool :=
  c == ' ' || c == '\n' || c == '\t' || c == '\r'

/-- Characters of a string with leading and trailing whitespace removed. -/
def trimChars (cs : List Char) : List Char :=
  ((cs.dropWhile jsWs).reverse.dropWhile jsWs).reverse

/-- Model of String.prototype.trim. -/
def jsTrim (s : String) : String := String.mk (trimChars s.data)

theorem trimChars_length_le (cs : List Char) : (trimChars cs).length ≤ cs.length := by
  unfold trimChars
  calc ((cs.dropWhile jsWs).reverse.dropWhile jsWs).reverse.length
      = ((cs.dropWhile jsWs).reverse.dropWhile jsWs).length := List.length_reverse _
    _ ≤ (cs.dropWhile jsWs).reverse.length := (List.dropWhile_sublist _).length_le
    _ = (cs.dropWhile jsWs).length := List.length_reverse _
    _ ≤ cs.length := (List.dropWhile_sublist _).length_le

theorem jsTrim_length_le (s : String) : (jsTrim s).length ≤ s.length :=
  trimChars_length_le s.data

mutual

/-- Size measure on JavaScript values used to prove termination of the
recursive text-extraction helper: leaves weigh nothing, a string weighs its
length plus one, arrays and objects weigh one plus their contents. -/
def jsize : JSVal → Nat
  | JSVal.null => 0
  | JSVal.undef => 0
  | JSVal.bool _ => 0
  | JSVal.num _ => 0
  | JSVal.str s => s.length + 1
  | JSVal.arr xs => 1 + jsizeList xs
  | JSVal.obj fs => 1 + jsizeFields fs

/-- Total size of a list of values. -/
def jsizeList : List JSVal → Nat
  | [] => 0
  | v :: vs => jsize v + jsizeList vs

/-- Total size of the values of an association list (keys are not counted). -/
def jsizeFields : List (String × JSVal) → Nat
  | [] => 0
  | f :: fs => jsize f.2 + jsizeFields fs

end

theorem lookupLast_jsize_le (fs : List (String × JSVal)) (k : String) (v : JSVal)
    (h : lookupLast fs k = some v) : jsize v ≤ jsizeFields fs := by
  induction fs with
  | nil => simp [lookupLast] at h
  | cons f fs ih =>
    simp only [lookupLast] at h
    cases hrec : lookupLast fs k with
    | some w =>
      rw [hrec] at h
      cases h
      calc jsize v ≤ jsizeFields fs := ih hrec
        _ ≤ jsize f.2 + jsizeFields fs := Nat.le_add_left _ _
        _ = jsizeFields (f :: fs) := rfl
    | none =>
      rw [hrec] at h
      by_cases hk : f.1 = k
      · simp only [hk, if_pos rfl] at h
        cases h
        show jsize f.2 ≤ jsizeFields (f :: fs)
        simp only [jsizeFields]
        exact Nat.le_add_right _ _
      · simp [hk] at h

theorem getField_jsize_lt (fs : List (String × JSVal)) (k : String) (v : JSVal)
    (h : getField (JSVal.obj fs) k = some v) : jsize v < jsize (JSVal.obj fs) := by
  have hle : jsize v ≤ jsizeFields fs := lookupLast_jsize_le fs k v h
  calc jsize v ≤ jsizeFields fs := hle
    _ < 1 + jsizeFields fs := Nat.lt_one_add_iff.mpr (Nat.le_refl _)
    _ = jsize (JSVal.obj fs) := rfl

/-- The double-quote character. -/
def qChar : Char := Char.ofNat 34

/-- The backslash character. -/
def bsChar : Char := Char.ofNat 92

/-- The opening-brace character. -/
def lbraceChar : Char := Char.ofNat 123

/-- The closing-brace character. -/
def rbraceChar : Char := Char.ofNat 125

/-- The opening-bracket character. -/
def lbrackChar : Char := Char.ofNat 91

/-- The closing-bracket character. -/
def rbrackChar : Char := Char.ofNat 93

/-- The backtick character. -/
def btChar : Char := Char.ofNat 96

/-- Skip JSON whitespace. -/
def skipWs (cs : List Char) : List Char := cs.dropWhile jsWs

theorem skipWs_length_le (cs : List Char) : (skipWs cs).length ≤ cs.length :=
  (List.dropWhile_sublist _).length_le

/-- Remove an expected literal text from the front of the input. -/
def stripPfx : List Char → List Char → Option (List Char)
  | [], cs => some cs
  | _ :: _, [] => none
  | p :: ps, c :: cs => if c = p then stripPfx ps cs else none

theorem stripPfx_length_le :
    ∀ ps cs r, stripPfx ps cs = some r → r.length ≤ cs.length
  | [], cs, r, h => by
    simp only [stripPfx] at h
    cases h
    exact Nat.le_refl _
  | p :: ps, [], r, h => by simp [stripPfx] at h
  | p :: ps, c :: cs, r, h => by
    simp only [stripPfx] at h
    by_cases hc : c = p
    · rw [if_pos hc] at h
      exact Nat.le_succ_of_le (stripPfx_length_le ps cs r h)
    · rw [if_neg hc] at h
      cases h

/-- One escaped character of a JSON string literal (simplified: the common
single-character escapes; a u-escape is kept as the letter u followed by the
hex digits as text). -/
def unescapeChar (c : Char) : Char :=
  if c = 'n' then '\n'
  else if c = 't' then '\t'
  else if c = 'r' then '\r'
  else if c = 'b' then Char.ofNat 8
  else if c = 'f' then Char.ofNat 12
  else c

/-- A character that may appear in the tail of a numeric literal. -/
def numTailChar (c : Char) : Bool :=
  c.isDigit || c == '.' || c == 'e' || c == 'E' || c == '+' || c == '-'

/-- Value of a list of decimal digit characters. -/
def digitsToNat (ds : List Char) : Nat :=
  ds.foldl (fun a c => a * 10 + (c.toNat - 48)) 0

/-- Parse a JSON number (simplified: the integral part gives the value, a
fraction or exponent tail is consumed and discarded; the client only ever
sees integral numbers). -/
def parseNumber (cs : List Char) : Option (Int × List Char) :=
  match cs with
  | [] => none
  | c :: rest =>
    if c = '-' then
      match rest.takeWhile Char.isDigit with
      | [] => none
      | ds => some (-(digitsToNat ds : Int), (rest.dropWhile Char.isDigit).dropWhile numTailChar)
    else
      match (c :: rest).takeWhile Char.isDigit with
      | [] => none
      | ds => some ((digitsToNat ds : Int), ((c :: rest).dropWhile Char.isDigit).dropWhile numTailChar)

theorem parseNumber_length_le (cs : List Char) (n : Int) (r : List Char)
    (h : parseNumber cs = some (n, r)) : r.length ≤ cs.length := by
  match cs with
  | [] => simp [parseNumber] at h
  | c :: rest =>
    simp only [parseNumber] at h
    by_cases hc : c = '-'
    · rw [if_pos hc] at h
      cases hds : rest.takeWhile Char.isDigit with
      | nil => rw [hds] at h; cases h
      | cons d ds =>
        rw [hds] at h
        cases h
        calc ((rest.dropWhile Char.isDigit).dropWhile numTailChar).length
            ≤ (rest.dropWhile Char.isDigit).length := (List.dropWhile_sublist _).length_le
          _ ≤ rest.length := (List.dropWhile_sublist _).length_le
          _ ≤ (c :: rest).length := Nat.le_succ_of_le (Nat.le_refl _)
    · rw [if_neg hc] at h
      cases hds : (c :: rest).takeWhile Char.isDigit with
      | nil => rw [hds] at h; cases h
      | cons d ds =>
        rw [hds] at h
        cases h
        calc (((c :: rest).dropWhile Char.isDigit).dropWhile numTailChar).length
            ≤ ((c :: rest).dropWhile Char.isDigit).length := (List.dropWhile_sublist _).length_le
          _ ≤ (c :: rest).length := (List.dropWhile_sublist _).length_le

mutual

/-- Fuel-indexed recursive-descent JSON value parser (model of JSON.parse;
the fuel is a bound on recursion depth that jsonParse always supplies
generously). -/
def parseValue : Nat → List Char → Option (JSVal × List Char)
  | 0, _ => none
  | f + 1, cs =>
    match skipWs cs with
    | [] => none
    | c :: rest =>
      if c = qChar then
        match parseStrBody f rest with
        | some (out, r) => some (JSVal.str (String.mk out), r)
        | none => none
      else if c = lbraceChar then
        match parseMembers f rest with
        | some (fs, r) => some (JSVal.obj fs, r)
        | none => none
      else if c = lbrackChar then
        match parseElems f rest with
        | some (vs, r) => some (JSVal.arr vs, r)
        | none => none
      else if c = 'n' then
        match stripPfx ['u', 'l', 'l'] rest with
        | some r => some (JSVal.null, r)
        | none => none
      else if c = 't' then
        match stripPfx ['r', 'u', 'e'] rest with
        | some r => some (JSVal.bool true, r)
        | none => none
      else if c = 'f' then
        match stripPfx ['a', 'l', 's', 'e'] rest with
        | some r => some (JSVal.bool false, r)
        | none => none
      else
        match parseNumber (c :: rest) with
        | some (n, r) => some (JSVal.num n, r)
        | none => none

/-- Body of a JSON string literal after its opening quote: returns the
decoded characters and the input after the closing quote. -/
def parseStrBody : Nat → List Char → Option (List Char × List Char)
  | 0, _ => none
  | f + 1, cs =>
    match cs with
    | [] => none
    | c :: cs2 =>
      if c = qChar then some ([], cs2)
      else if c = bsChar then
        match cs2 with
        | [] => none
        | e :: cs3 =>
          match parseStrBody f cs3 with
          | some (out, r) => some (unescapeChar e :: out, r)
          | none => none
      else
        match parseStrBody f cs2 with
        | some (out, r) => some (c :: out, r)
        | none => none

/-- One key : value member of a JSON object. -/
def parseMemberOne : Nat → List Char → Option ((String × JSVal) × List Char)
  | 0, _ => none
  | f + 1, cs =>
    match skipWs cs with
    | [] => none
    | c :: rest =>
      if c = qChar then
        match parseStrBody f rest with
        | some (kout, rest0) =>
          match skipWs rest0 with
          | [] => none
          | c2 :: r2 =>
            if c2 = ':' then
              match parseValue f r2 with
              | some (v, rest2) => some ((String.mk kout, v), rest2)
              | none => none
            else none
        | none => none
      else none

/-- Contents of a JSON array after its opening bracket. -/
def parseElems : Nat → List Char → Option (List JSVal × List Char)
  | 0, _ => none
  | f + 1, cs =>
    match skipWs cs with
    | [] => none
    | c :: rest =>
      if c = rbrackChar then some ([], rest)
      else
        match parseValue f cs with
        | some (v, rest1) =>
          match parseElemsTail f rest1 with
          | some (vs, r2) => some (v :: vs, r2)
          | none => none
        | none => none

/-- Continuation of a JSON array after one parsed element. -/
def parseElemsTail : Nat → List Char → Option (List JSVal × List Char)
  | 0, _ => none
  | f + 1, cs =>
    match skipWs cs with
    | [] => none
    | c :: rest =>
      if c = rbrackChar then some ([], rest)
      else if c = ',' then
        match parseValue f rest with
        | some (v, rest1) =>
          match parseElemsTail f rest1 with
          | some (vs, r2) => some (v :: vs, r2)
          | none => none
        | none => none
      else none

/-- Contents of a JSON object after its opening brace. -/
def parseMembers : Nat → List Char → Option (List (String × JSVal) × List Char)
  | 0, _ => none
  | f + 1, cs =>
    match skipWs cs with
    | [] => none
    | c :: rest =>
      if c = rbraceChar then some ([], rest)
      else
        match parseMemberOne f cs with
        | some (m, rest1) =>
          match parseMembersTail f rest1 with
          | some (ms, r2) => some (m :: ms, r2)
          | none => none
        | none => none

/-- Continuation of a JSON object after one parsed member. -/
def parseMembersTail : Nat → List Char → Option (List (String × JSVal) × List Char)
  | 0, _ => none
  | f + 1, cs =>
    match skipWs cs with
    | [] => none
    | c :: rest =>
      if c = rbraceChar then some ([], rest)
      else if c = ',' then
        match parseMemberOne f rest with
        | some (m, rest1) =>
          match parseMembersTail f rest1 with
          | some (ms, r2) => some (m :: ms, r2)
          | none => none
        | none => none
      else none

end

/-- Model of JSON.parse: parse one value, allow trailing whitespace only.
The fuel is generous enough for any input the recursion depth of which is
bounded by its length. -/
def jsonParse (s : String) : Option JSVal :=
  match parseValue (2 * s.length + 8) s.data with
  | some (v, rest) => if skipWs rest = [] then some v else none
  | none => none

theorem parseMeasure : ∀ f : Nat,
    (∀ cs v rest, parseValue f cs = some (v, rest) → jsize v + rest.length ≤ cs.length) ∧
    (∀ cs out rest, parseStrBody f cs = some (out, rest) → out.length + rest.length + 1 ≤ cs.length) ∧
    (∀ cs m rest, parseMemberOne f cs = some (m, rest) → jsize m.2 + rest.length ≤ cs.length) ∧
    (∀ cs vs rest, parseElems f cs = some (vs, rest) → jsizeList vs + rest.length ≤ cs.length) ∧
    (∀ cs vs rest, parseElemsTail f cs = some (vs, rest) → jsizeList vs + rest.length ≤ cs.length) ∧
    (∀ cs ms rest, parseMembers f cs = some (ms, rest) → jsizeFields ms + rest.length ≤ cs.length) ∧
    (∀ cs ms rest, parseMembersTail f cs = some (ms, rest) → jsizeFields ms + rest.length ≤ cs.length)
  | 0 => by
      refine ⟨?_, ?_, ?_, ?_, ?_, ?_, ?_⟩ <;> intro cs a b h <;>
        simp [parseValue, parseStrBody, parseMemberOne, parseElems, parseElemsTail,
          parseMembers, parseMembersTail] at h
  | f + 1 => by
      obtain ⟨ihP, ihS, ihM1, ihE, ihET, ihMM, ihMT⟩ := parseMeasure f
      refine ⟨?_, ?_, ?_, ?_, ?_, ?_, ?_⟩
      · -- parseValue
        intro cs v rest h
        have hsk := skipWs_length_le cs
        simp only [parseValue] at h
        split at h
        · cases h
        · next c rest1 hws =>
          rw [hws] at hsk
          simp only [List.length_cons] at hsk
          split at h
          · -- string
            split at h
            · next out r hsb =>
              cases h
              have hs := ihS _ _ _ hsb
              have hj : jsize (JSVal.str (String.mk out)) = out.length + 1 := by
                simp [jsize, String.length]
              rw [hj]
              omega
            · cases h
          · split at h
            · -- object
              split at h
              · next fs r hm =>
                cases h
                have hmm := ihMM _ _ _ hm
                have hj : jsize (JSVal.obj fs) = 1 + jsizeFields fs := by simp [jsize]
                rw [hj]
                omega
              · cases h
            · split at h
              · -- array
                split at h
                · next vs r he =>
                  cases h
                  have hee := ihE _ _ _ he
                  have hj : jsize (JSVal.arr vs) = 1 + jsizeList vs := by simp [jsize]
                  rw [hj]
                  omega
                · cases h
              · split at h
                · -- null literal
                  split at h
                  · next r hsp =>
                    cases h
                    have hr := stripPfx_length_le _ _ _ hsp
                    have hj : jsize JSVal.null = 0 := by simp [jsize]
                    rw [hj]
                    omega
                  · cases h
                · split at h
                  · -- true literal
                    split at h
                    · next r hsp =>
                      cases h
                      have hr := stripPfx_length_le _ _ _ hsp
                      have hj : jsize (JSVal.bool true) = 0 := by simp [jsize]
                      rw [hj]
                      omega
                    · cases h
                  · split at h
                    · -- false literal
                      split at h
                      · next r hsp =>
                        cases h
                        have hr := stripPfx_length_le _ _ _ hsp
                        have hj : jsize (JSVal.bool false) = 0 := by simp [jsize]
                        rw [hj]
                        omega
                      · cases h
                    · -- number
                      split at h
                      · next n r hn =>
                        cases h
                        have hr := parseNumber_length_le _ _ _ hn
                        simp only [List.length_cons] at hr
                        have hj : jsize (JSVal.num n) = 0 := by simp [jsize]
                        rw [hj]
                        omega
                      · cases h
      · -- parseStrBody
        intro cs out rest h
        cases cs with
        | nil => simp [parseStrBody] at h
        | cons c cs2 =>
          simp only [parseStrBody] at h
          split at h
          · -- closing quote
            cases h
            simp only [List.length_nil, List.length_cons]
            omega
          · split at h
            · -- escape
              split at h
              · cases h
              · next e cs3 =>
                split at h
                · next out0 r hsb =>
                  cases h
                  have hs := ihS _ _ _ hsb
                  simp only [List.length_cons]
                  omega
                · cases h
            · -- ordinary character
              split at h
              · next out0 r hsb =>
                cases h
                have hs := ihS _ _ _ hsb
                simp only [List.length_cons]
                omega
              · cases h
      · -- parseMemberOne
        intro cs m rest h
        have hsk := skipWs_length_le cs
        simp only [parseMemberOne] at h
        split at h
        · cases h
        · next c rest1 hws =>
          rw [hws] at hsk
          simp only [List.length_cons] at hsk
          split at h
          · split at h
            · next kout rest0 hsb =>
              have hs := ihS _ _ _ hsb
              have hsk2 := skipWs_length_le rest0
              split at h
              · cases h
              · next c2 r2 hws2 =>
                rw [hws2] at hsk2
                simp only [List.length_cons] at hsk2
                split at h
                · split at h
                  · next v rest2 hpv =>
                    cases h
                    have hp := ihP _ _ _ hpv
                    show jsize v + rest.length ≤ cs.length
                    omega
                  · cases h
                · cases h
            · cases h
          · cases h
      · -- parseElems
        intro cs vs rest h
        have hsk := skipWs_length_le cs
        simp only [parseElems] at h
        split at h
        · cases h
        · next c rest1 hws =>
          rw [hws] at hsk
          simp only [List.length_cons] at hsk
          split at h
          · cases h
            have hj : jsizeList ([] : List JSVal) = 0 := by simp [jsizeList]
            rw [hj]
            omega
          · split at h
            · next v rest1' hpv =>
              have hp := ihP _ _ _ hpv
              split at h
              · next vs' r2 htl =>
                cases h
                have ht := ihET _ _ _ htl
                have hj : jsizeList (v :: vs') = jsize v + jsizeList vs' := by simp [jsizeList]
                rw [hj]
                omega
              · cases h
            · cases h
      · -- parseElemsTail
        intro cs vs rest h
        have hsk := skipWs_length_le cs
        simp only [parseElemsTail] at h
        split at h
        · cases h
        · next c rest1 hws =>
          rw [hws] at hsk
          simp only [List.length_cons] at hsk
          split at h
          · cases h
            have hj : jsizeList ([] : List JSVal) = 0 := by simp [jsizeList]
            rw [hj]
            omega
          · split at h
            · split at h
              · next v rest1' hpv =>
                have hp := ihP _ _ _ hpv
                split at h
                · next vs' r2 htl =>
                  cases h
                  have ht := ihET _ _ _ htl
                  have hj : jsizeList (v :: vs') = jsize v + jsizeList vs' := by simp [jsizeList]
                  rw [hj]
                  omega
                · cases h
              · cases h
            · cases h
      · -- parseMembers
        intro cs ms rest h
        have hsk := skipWs_length_le cs
        simp only [parseMembers] at h
        split at h
        · cases h
        · next c rest1 hws =>
          rw [hws] at hsk
          simp only [List.length_cons] at hsk
          split at h
          · cases h
            have hj : jsizeFields ([] : List (String × JSVal)) = 0 := by simp [jsizeFields]
            rw [hj]
            omega
          · split at h
            · next m rest1' hm1 =>
              have hm := ihM1 _ _ _ hm1
              split at h
              · next ms' r2 htl =>
                cases h
                have ht := ihMT _ _ _ htl
                have hj : jsizeFields (m :: ms') = jsize m.2 + jsizeFields ms' := by
                  simp [jsizeFields]
                rw [hj]
                omega
              · cases h
            · cases h
      · -- parseMembersTail
        intro cs ms rest h
        have hsk := skipWs_length_le cs
        simp only [parseMembersTail] at h
        split at h
        · cases h
        · next c rest1 hws =>
          rw [hws] at hsk
          simp only [List.length_cons] at hsk
          split at h
          · cases h
            have hj : jsizeFields ([] : List (String × JSVal)) = 0 := by simp [jsizeFields]
            rw [hj]
            omega
          · split at h
            · split at h
              · next m rest1' hm1 =>
                have hm := ihM1 _ _ _ hm1
                split at h
                · next ms' r2 htl =>
                  cases h
                  have ht := ihMT _ _ _ htl
                  have hj : jsizeFields (m :: ms') = jsize m.2 + jsizeFields ms' := by
                    simp [jsizeFields]
                  rw [hj]
                  omega
                · cases h
              · cases h
            · cases h

theorem jsonParse_jsize_le (s : String) (v : JSVal) (h : jsonParse s = some v) :
    jsize v ≤ s.length := by
  unfold jsonParse at h
  cases hp : parseValue (2 * s.length + 8) s.data with
  | none => rw [hp] at h; cases h
  | some pr =>
    obtain ⟨w, rest⟩ := pr
    rw [hp] at h
    have hm := (parseMeasure (2 * s.length + 8)).1 s.data w rest hp
    by_cases hr : skipWs rest = []
    · simp only [hr, if_pos rfl] at h
      cases h
      calc jsize v ≤ jsize v + rest.length := Nat.le_add_right _ _
        _ ≤ s.data.length := hm
        _ = s.length := rfl
    · simp [hr] at h

/-- Whether the input begins with three backticks followed by the letters
j s o n in either case (the pattern of the first .replace call). -/
def matchesBJ (l : List Char) : Bool :=
  match l with
  | a :: b :: c :: d :: e :: f :: g :: _ =>
    a = btChar && b = btChar && c = btChar && d.toLower = 'j' && e.toLower = 's'
      && f.toLower = 'o' && g.toLower = 'n'
  | _ => false

/-- Whether the input begins with three backticks (the pattern of the second
.replace call). -/
def matchesTicks (l : List Char) : Bool :=
  match l with
  | a :: b :: c :: _ => a = btChar && b = btChar && c = btChar
  | _ => false

/-- Model of .replace with the global case-insensitive backtick-backtick-
backtick-j-s-o-n pattern: scan left to right, removing every occurrence. -/
def stripBJ : List Char → List Char
  | [] => []
  | c :: cs =>
    if matchesBJ (c :: cs) then stripBJ (cs.drop 6)
    else c :: stripBJ cs
termination_by l => l.length
decreasing_by
  · simp only [List.length_drop, List.length_cons]; omega
  · simp only [List.length_cons]; omega

/-- Model of .replace with the global three-backtick pattern: scan left to
right, removing every occurrence. -/
def stripTicks : List Char → List Char
  | [] => []
  | c :: cs =>
    if matchesTicks (c :: cs) then stripTicks (cs.drop 2)
    else c :: stripTicks cs
termination_by l => l.length
decreasing_by
  · simp only [List.length_drop, List.length_cons]; omega
  · simp only [List.length_cons]; omega

theorem stripBJ_len_aux : ∀ (n : Nat) (cs : List Char),
    cs.length ≤ n → (stripBJ cs).length ≤ cs.length := by
  intro n
  induction n with
  | zero =>
    intro cs h
    have hnil : cs = [] := List.eq_nil_of_length_eq_zero (Nat.le_zero.mp h)
    subst hnil
    simp [stripBJ]
  | succ n ih =>
    intro cs hlen
    cases cs with
    | nil => simp [stripBJ]
    | cons c cs2 =>
      rw [stripBJ]
      by_cases hb : matchesBJ (c :: cs2) = true
      · rw [if_pos hb]
        have h1 := ih (cs2.drop 6)
          (by simp only [List.length_drop]; simp only [List.length_cons] at hlen; omega)
        have h2 : (cs2.drop 6).length ≤ cs2.length := by
          simp only [List.length_drop]; omega
        simp only [List.length_cons]
        omega
      · rw [if_neg hb]
        have h1 := ih cs2 (by simp only [List.length_cons] at hlen; omega)
        simp only [List.length_cons]
        omega

theorem stripBJ_length_le (cs : List Char) : (stripBJ cs).length ≤ cs.length :=
  stripBJ_len_aux cs.length cs (Nat.le_refl _)

theorem stripTicks_len_aux : ∀ (n : Nat) (cs : List Char),
    cs.length ≤ n → (stripTicks cs).length ≤ cs.length := by
  intro n
  induction n with
  | zero =>
    intro cs h
    have hnil : cs = [] := List.eq_nil_of_length_eq_zero (Nat.le_zero.mp h)
    subst hnil
    simp [stripTicks]
  | succ n ih =>
    intro cs hlen
    cases cs with
    | nil => simp [stripTicks]
    | cons c cs2 =>
      rw [stripTicks]
      by_cases hb : matchesTicks (c :: cs2) = true
      · rw [if_pos hb]
        have h1 := ih (cs2.drop 2)
          (by simp only [List.length_drop]; simp only [List.length_cons] at hlen; omega)
        have h2 : (cs2.drop 2).length ≤ cs2.length := by
          simp only [List.length_drop]; omega
        simp only [List.length_cons]
        omega
      · rw [if_neg hb]
        have h1 := ih cs2 (by simp only [List.length_cons] at hlen; omega)
        simp only [List.length_cons]
        omega

theorem stripTicks_length_le (cs : List Char) : (stripTicks cs).length ≤ cs.length :=
  stripTicks_len_aux cs.length cs (Nat.le_refl _)

/-- Try to match the regex pattern quote KEY quote ws* colon ws* quote
capture-of-non-quotes quote at the head of the input, returning the capture
(model of the three .match fallbacks of extractQuestionTextFromAny). -/
def matchKeyAt (key : List Char) (cs : List Char) : Option String :=
  match stripPfx (qChar :: key ++ [qChar]) cs with
  | none => none
  | some r1 =>
    match r1.dropWhile jsWs with
    | [] => none
    | c :: r3 =>
      if c = ':' then
        match r3.dropWhile jsWs with
        | [] => none
        | c2 :: r5 =>
          if c2 = qChar then
            match r5.takeWhile (fun ch => ch ≠ qChar) with
            | [] => none
            | cap =>
              if (r5.dropWhile (fun ch => ch ≠ qChar)).isEmpty then none
              else some (String.mk cap)
          else none
      else none

/-- Scan the input left to right for the first position at which matchKeyAt
succeeds (the semantics of String.prototype.match without the global flag). -/
def searchKey (key : List Char) : List Char → Option String
  | [] => none
  | c :: cs =>
    match matchKeyAt key (c :: cs) with
    | some cap => some cap
    | none => searchKey key cs

/-- startsWith-brace-or-bracket test on a string. -/
def startsWithBrace (s : String) : Bool :=
  match s.data with
  | c :: _ => c = lbraceChar || c = lbrackChar
  | [] => false

/-- The chain of property names probed by extractQuestionTextFromAny on an
object, in source order. -/
def extractKeys : List String :=
  ["question_text", "question", "text", "json", "response", "selected_question",
    "draft", "result", "output", "MCQ", "Short Notes", "Essay"]

/-- The first truthy property of the value among the given keys, following
the if-chains of the source. -/
def firstTruthyField (v : JSVal) : List String → Option JSVal
  | [] => none
  | k :: ks =>
    match getField v k with
    | some w => if truthy w then some w else firstTruthyField v ks
    | none => firstTruthyField v ks

theorem firstTruthyField_getField (v : JSVal) (ks : List String) (w : JSVal)
    (h : firstTruthyField v ks = some w) : ∃ k, getField v k = some w := by
  induction ks with
  | nil => simp [firstTruthyField] at h
  | cons k ks ih =>
    simp only [firstTruthyField] at h
    cases hg : getField v k with
    | some u =>
      rw [hg] at h
      cases ht : truthy u with
      | true =>
        simp only [ht, if_true] at h
        cases h
        exact ⟨k, hg⟩
      | false =>
        simp only [ht, if_false] at h
        exact ih h
    | none =>
      rw [hg] at h
      exact ih h

theorem firstTruthyField_jsize_lt (fs : List (String × JSVal)) (ks : List String)
    (w : JSVal) (h : firstTruthyField (JSVal.obj fs) ks = some w) :
    jsize w < jsize (JSVal.obj fs) := by
  obtain ⟨k, hk⟩ := firstTruthyField_getField _ _ _ h
  exact getField_jsize_lt fs k w hk

theorem length_mk (l : List Char) : (String.mk l).length = l.length := rfl

/-- The vetting screen's extractQuestionTextFromAny, translated clause by
clause from app/(tabs)/vetting.tsx lines 52-85: falsy input yields the
placeholder; a string that (after trimming) looks like JSON is cleaned of
code fences and parsed, recursing on the parsed value, with three regex
fallbacks on parse failure; an object is probed for a chain of well-known
properties, recursing on the first truthy one, and otherwise stringified;
an array is stringified; any other value is converted with String(). -/
def extractQuestionTextFromAny (raw : JSVal) : String :=
  if truthy raw = false then "No question text"
  else
    match raw with
    | JSVal.str s =>
      if startsWithBrace (jsTrim s) then
        match hp : jsonParse (jsTrim (String.mk (stripTicks (stripBJ (jsTrim s).data)))) with
        | some parsed => extractQuestionTextFromAny parsed
        | none =>
          match searchKey "question_text".data s.data with
          | some cap => cap
          | none =>
            match searchKey "question".data s.data with
            | some cap => cap
            | none =>
              match searchKey "text".data s.data with
              | some cap => cap
              | none => s
      else s
    | JSVal.obj fs =>
      match hf : firstTruthyField (JSVal.obj fs) extractKeys with
      | some w => extractQuestionTextFromAny w
      | none => jsonStringify (JSVal.obj fs)
    | JSVal.arr xs => jsonStringify (JSVal.arr xs)
    | v => jsString v
termination_by jsize raw
decreasing_by
  · have h1 := jsonParse_jsize_le _ _ hp
    have e1 : (jsTrim (String.mk (stripTicks (stripBJ (jsTrim s).data)))).length
        = (trimChars (stripTicks (stripBJ (trimChars s.data)))).length := rfl
    rw [e1] at h1
    have h2 := trimChars_length_le (stripTicks (stripBJ (trimChars s.data)))
    have h3 := stripTicks_length_le (stripBJ (trimChars s.data))
    have h4 := stripBJ_length_le (trimChars s.data)
    have h5 := trimChars_length_le s.data
    have hj : jsize (JSVal.str s) = s.data.length + 1 := by
      simp only [jsize]
      rfl
    rw [hj]
    omega
  · exact firstTruthyField_jsize_lt fs extractKeys w hf

/-- An HTTP response as seen by the request wrapper of services/api.ts:
its status code, status text, and the result of attempting to parse its
body as JSON (none when the body is not valid JSON). -/
structure Response where
  status : Nat
  statusText : String
  jsonBody : Option JSVal

/-- The ok flag of the fetch API: status in the 200-299 range. -/
def Response.ok (r : Response) : Bool :=
  decide (200 ≤ r.status) && decide (r.status ≤ 299)

/-- Outcome of the fetch call itself: a network-level rejection or a
response. -/
inductive FetchResult where
  | error : String → FetchResult
  | success : Response → FetchResult

/-- The error thrown out of the request wrapper: the fetch rejection, the
JSON-parse failure of a 2xx body, or the Error built for a non-2xx status. -/
inductive ReqError where
  | network : String → ReqError
  | parse : String → ReqError
  | api : String → ReqError

/-- The message carried by a request error. -/
def ReqError.msg : ReqError → String
  | ReqError.network m => m
  | ReqError.parse m => m
  | ReqError.api m => m

/-- Observable effects of one request invocation. -/
inductive Event where
  | fetched : String → Event
  | logged : Event

/-- Whether an event is a fetch of some URL. -/
def Event.isFetched : Event → Bool
  | Event.fetched _ => true
  | Event.logged => false

/-- The first line of the error message built for a non-2xx response
(api.ts line 45). -/
def statusLine (res : Response) : String :=
  "API Error: " ++ toString res.status ++ " " ++ res.statusText

/-- One conditional append of the error-body field named by key (api.ts
lines 49-50: appended only when the field is truthy, rendered by the
template literal). -/
def appendField (msg : String) (body : JSVal) (key : String) : String :=
  match getField body key with
  | some v => if truthy v then msg ++ " - " ++ jsString v else msg
  | none => msg

/-- The full error message for a non-2xx response: the status line, then a
best-effort append of the parsed body's detail and message fields; when the
body does not parse, just the status line (api.ts lines 45-54). -/
def errorMessageFor (res : Response) : String :=
  match res.jsonBody with
  | none => statusLine res
  | some body => appendField (appendField (statusLine res) body "detail") body "message"

/-- The body of the try block of request (api.ts lines 42-62): throw on
non-2xx with the built message, resolve with an empty object on 204, and
otherwise resolve with the parsed JSON body or fail with a parse error. -/
def requestTry (res : Response) : Except ReqError JSVal :=
  if res.ok = false then Except.error (ReqError.api (errorMessageFor res))
  else if res.status = 204 then Except.ok (JSVal.obj [])
  else
    match res.jsonBody with
    | some v => Except.ok v
    | none => Except.error (ReqError.parse "Unexpected end of JSON input")

/-- The try-block outcome of request for a given fetch result: a fetch
rejection propagates as-is, a response goes through requestTry. -/
def requestTryFull : FetchResult → Except ReqError JSVal
  | FetchResult.error m => Except.error (ReqError.network m)
  | FetchResult.success res => requestTry res

/-- The request wrapper of services/api.ts (lines 31-67), over a given base
URL, endpoint and fetch outcome.  It returns the settled promise plus the
list of observable events: exactly one fetch of the constructed URL, and a
log before any rethrow (the catch block logs and rethrows unchanged). -/
def request (apiBase endpoint : String) (f : FetchResult) :
    Except ReqError JSVal × List Event :=
  match f with
  | FetchResult.error m =>
    (Except.error (ReqError.network m), [Event.fetched (apiBase ++ endpoint), Event.logged])
  | FetchResult.success res =>
    match requestTry res with
    | Except.ok v => (Except.ok v, [Event.fetched (apiBase ++ endpoint)])
    | Except.error e =>
      (Except.error e, [Event.fetched (apiBase ++ endpoint), Event.logged])

/-- Model of JavaScript parseInt on a string with no explicit radix: skip
leading whitespace, take an optional sign and then the longest prefix of
decimal digits; none models NaN (no digits found). -/
def jsParseInt (s : String) : Option Int :=
  match s.data.dropWhile jsWs with
  | [] => none
  | c :: rest =>
    if c = '-' then
      match rest.takeWhile Char.isDigit with
      | [] => none
      | ds => some (-(digitsToNat ds : Int))
    else if c = '+' then
      match rest.takeWhile Char.isDigit with
      | [] => none
      | ds => some ((digitsToNat ds : Int))
    else
      match (c :: rest).takeWhile Char.isDigit with
      | [] => none
      | ds => some ((digitsToNat ds : Int))

/-- JavaScript string-or-default: the left operand unless it is falsy (the
empty string), as in the expressions duration or-else quoted-60. -/
def jsOrDefault (a b : String) : String := if a = "" then b else a

/-- The create-rubric form state of GenerateScreen (generate.tsx lines
24-35): the name field, exam type, duration text and the six distribution
inputs (counts are slider values, marks are free-text fields). -/
structure RubricForm where
  rubricName : String
  examType : String
  duration : String
  mcqCount : Nat
  mcqMarks : String
  shortCount : Nat
  shortMarks : String
  essayCount : Nat
  essayMarks : String

/-- The JSON payload handed to createRubric (generate.tsx lines 75-85).
Marks and duration go through parseInt with string defaults, so a
non-numeric text field yields none (NaN). -/
structure RubricPayload where
  name : String
  examType : String
  duration : Option Int
  mcqCount : Nat
  mcqMarksEach : Option Int
  shortCount : Nat
  shortMarksEach : Option Int
  essayCount : Nat
  essayMarksEach : Option Int

/-- Outcome of one press of Save Rubric. -/
inductive CreateRubricResult where
  | alertNameRequired : CreateRubricResult
  | created : RubricPayload → CreateRubricResult

/-- handleCreateRubric (generate.tsx lines 69-91): alert and bail out when
the trimmed name is empty, otherwise call createRubric with the payload. -/
def handleCreateRubric (f : RubricForm) : CreateRubricResult :=
  if jsTrim f.rubricName = "" then CreateRubricResult.alertNameRequired
  else
    CreateRubricResult.created
      { name := jsTrim f.rubricName
        examType := f.examType
        duration := jsParseInt (jsOrDefault f.duration "60")
        mcqCount := f.mcqCount
        mcqMarksEach := jsParseInt (jsOrDefault f.mcqMarks "2")
        shortCount := f.shortCount
        shortMarksEach := jsParseInt (jsOrDefault f.shortMarks "5")
        essayCount := f.essayCount
        essayMarksEach := jsParseInt (jsOrDefault f.essayMarks "10") }

/-- The six cognitive-level weights of the Bloom's Taxonomy modal
(_layout.tsx lines 262-265 initialise them; each slider ranges over 0-100
in steps of 5). -/
structure BloomDistribution where
  knowledge : Nat
  comprehension : Nat
  application : Nat
  analysis : Nat
  synthesis : Nat
  evaluation : Nat

/-- The sum of the six weights. -/
def BloomDistribution.total (d : BloomDistribution) : Nat :=
  d.knowledge + d.comprehension + d.application + d.analysis + d.synthesis + d.evaluation

/-- The default distribution installed when a topic has none yet
(_layout.tsx lines 263-265). -/
def defaultBloomDistribution : BloomDistribution :=
  { knowledge := 40, comprehension := 20, application := 20,
    analysis := 10, synthesis := 5, evaluation := 5 }

/-- Outcome of one press of Save Configuration in the Bloom's modal. -/
inductive SaveSyllabusResult where
  | noTopic : SaveSyllabusResult
  | saved : Nat → BloomDistribution → SaveSyllabusResult

/-- handleSaveSyllabus (_layout.tsx lines 270-282): bail out when no topic
is active, otherwise send updateTopicSyllabus with the current distribution
unconditionally. -/
def handleSaveSyllabus (activeTopicId : Option Nat) (dist : BloomDistribution) :
    SaveSyllabusResult :=
  match activeTopicId with
  | none => SaveSyllabusResult.noTopic
  | some tid => SaveSyllabusResult.saved tid dist

/-- The action chosen in the vetting review screen. -/
inductive VetAction where
  | approve : VetAction
  | reject : VetAction
  | edit : VetAction
deriving DecidableEq

/-- The review state consulted by handleSubmit (vetting.tsx): chosen action,
selected Course Outcome ids, chosen rejection reason and feedback text. -/
structure VetState where
  action : Option VetAction
  selectedCos : List Int
  rejectionReason : Option String
  feedback : String

/-- The action string sent to the backend (vetting.tsx line 522). -/
def vetActionString : VetAction → String
  | VetAction.approve => "approved"
  | VetAction.reject => "rejected"
  | VetAction.edit => "edited"

/-- The payload handed to submitVetting (vetting.tsx lines 520-530),
restricted to the fields the claims mention. -/
structure VetPayload where
  action : String
  coMappings : List Int
  rejectionReason : Option String
  editedText : Option String

/-- Outcome of one press of Submit in the vetting review screen. -/
inductive SubmitResult where
  | alertSelectAction : SubmitResult
  | alertNeedCo : SubmitResult
  | alertNeedReason : SubmitResult
  | alertNeedFeedback : SubmitResult
  | submitted : VetPayload → SubmitResult

/-- handleSubmit (vetting.tsx lines 508-546): validation alerts in source
order, then the submitVetting call. -/
def handleSubmit (s : VetState) : SubmitResult :=
  match s.action with
  | none => SubmitResult.alertSelectAction
  | some a =>
    if s.selectedCos.length = 0 then SubmitResult.alertNeedCo
    else if a = VetAction.reject ∧ s.rejectionReason = none then SubmitResult.alertNeedReason
    else if a = VetAction.reject ∧ (s.feedback = "" ∨ s.feedback.length < 5) then
      SubmitResult.alertNeedFeedback
    else
      SubmitResult.submitted
        { action := vetActionString a
          coMappings := s.selectedCos
          rejectionReason := s.rejectionReason
          editedText := if a = VetAction.edit then some s.feedback else none }

/-- A vetting batch as listed by BatchListView (only its progress matters
to the tab partition, plus an id to tell batches apart). -/
structure Batch where
  id : Int
  progress : Int
deriving DecidableEq

/-- The Active tab contents (vetting.tsx line 236). -/
def activeBatches (l : List Batch) : List Batch :=
  l.filter (fun b => decide (b.progress < 100))

/-- The History tab contents (vetting.tsx line 237). -/
def historyBatches (l : List Batch) : List Batch :=
  l.filter (fun b => decide (b.progress = 100))

/-- The view modes of GenerateScreen (generate.tsx line 12). -/
inductive GenView where
  | select : GenView
  | create : GenView
  | generating : GenView
  | complete : GenView
deriving DecidableEq

/-- Which of the two intervals started by handleGenerate are still
installed (pollRef and timerRef). -/
structure GenTimers where
  pollActive : Bool
  timerActive : Bool
deriving DecidableEq

/-- The slice of GenerateScreen state the polling claims are about: the
view mode, the two interval refs, and the last polled job status. -/
structure GenScreenState where
  view : GenView
  timers : GenTimers
  jobStatus : Option String

/-- The poll interval of the generation poller, in milliseconds
(generate.tsx line 121). -/
def genPollIntervalMs : Nat := 2000

/-- The elapsed-time tick interval of the generation screen, in
milliseconds (generate.tsx line 126). -/
def genTimerIntervalMs : Nat := 1000

/-- The poll interval of the training-status poller, in milliseconds
(TrainingDashboard, setInterval 3000). -/
def trainingPollIntervalMs : Nat := 3000

/-- The state handleGenerate enters on a successful startGeneration
(generate.tsx lines 102-126): pending job shown, generating view, both
intervals installed. -/
def startPollingState : GenScreenState :=
  { view := GenView.generating
    timers := { pollActive := true, timerActive := true }
    jobStatus := some "pending" }

/-- One execution of the poll-interval callback (generate.tsx lines
108-121).  The argument is the outcome of pollJob: none when it rejected
(the catch block ignores the error), some status otherwise.  On completed,
both intervals are cleared and the view switches to complete; on failed,
both intervals are cleared; on any other status nothing else happens. -/
def pollTick (s : GenScreenState) (polled : Option String) : GenScreenState :=
  match polled with
  | none => s
  | some st =>
    if st = "completed" then
      { view := GenView.complete
        timers := { pollActive := false, timerActive := false }
        jobStatus := some st }
    else if st = "failed" then
      { view := s.view
        timers := { pollActive := false, timerActive := false }
        jobStatus := some st }
    else
      { view := s.view, timers := s.timers, jobStatus := some st }

/-- Run the poller against a stream of pollJob outcomes, counting how many
callbacks actually execute: once the poll interval has been cleared, no
further callback runs. -/
def runPolls : GenScreenState → List (Option String) → GenScreenState × Nat
  | s, [] => (s, 0)
  | s, p :: ps =>
    if s.timers.pollActive then
      let s1 := pollTick s p
      let r := runPolls s1 ps
      (r.1, r.2 + 1)
    else (s, 0)

/-- The unmount cleanup effect of GenerateScreen (generate.tsx lines
59-64): clear both intervals. -/
def unmountCleanup (s : GenScreenState) : GenScreenState :=
  { s with timers := { pollActive := false, timerActive := false } }

/-- The Try Again button of the failed view (generate.tsx line 374): back
to the select view and clear both intervals. -/
def tryAgainPress (s : GenScreenState) : GenScreenState :=
  { s with view := GenView.select,
           timers := { pollActive := false, timerActive := false } }

/-- The training statuses during which the TrainingDashboard keeps
fetching (part of its 3-second setInterval callback). -/
def trainingActiveStates : List String :=
  ["generating", "evaluating_baseline", "evaluating_skill"]

/-- Whether one tick of the TrainingDashboard 3-second interval issues a
getTrainingStatus fetch: only when the current status object exists and its
status is one of the active states. -/
def trainingTickPolls (status : Option String) : Bool :=
  match status with
  | some st => trainingActiveStates.contains st
  | none => false

theorem appendField_split (msg : String) (body : JSVal) (key : String) :
    ∃ t, appendField msg body key = msg ++ t := by
  unfold appendField
  cases hg : getField body key with
  | none => exact ⟨"", (String.append_empty msg).symm⟩
  | some v =>
    by_cases ht : truthy v = true
    · refine ⟨" - " ++ jsString v, ?_⟩
      show (if truthy v = true then msg ++ " - " ++ jsString v else msg) = msg ++ (" - " ++ jsString v)
      rw [if_pos ht, String.append_assoc]
    · refine ⟨"", ?_⟩
      show (if truthy v = true then msg ++ " - " ++ jsString v else msg) = msg ++ ""
      rw [if_neg ht, String.append_empty]

theorem appendField_truthy (msg : String) (body : JSVal) (key : String) (v : JSVal)
    (hg : getField body key = some v) (ht : truthy v = true) :
    appendField msg body key = msg ++ " - " ++ jsString v := by
  unfold appendField
  rw [hg]
  show (if truthy v = true then msg ++ " - " ++ jsString v else msg) = msg ++ " - " ++ jsString v
  rw [if_pos ht]

theorem errorMessageFor_split (res : Response) :
    ∃ t, errorMessageFor res = statusLine res ++ t := by
  unfold errorMessageFor
  cases hb : res.jsonBody with
  | none => exact ⟨"", (String.append_empty _).symm⟩
  | some body =>
    obtain ⟨t1, h1⟩ := appendField_split (statusLine res) body "detail"
    obtain ⟨t2, h2⟩ := appendField_split (appendField (statusLine res) body "detail") body "message"
    refine ⟨t1 ++ t2, ?_⟩
    show appendField (appendField (statusLine res) body "detail") body "message"
        = statusLine res ++ (t1 ++ t2)
    rw [h2, h1, String.append_assoc]

/-- Claim C1: for every HTTP response with a non-2xx status, the request
helper rejects with an Error whose message contains the numeric status;
when the body parses as JSON with a truthy detail or message field that
field's rendered text is appended to the message, and when the body cannot
be parsed the message is exactly the status line. -/
theorem request_rejects_non2xx (base ep : String) (res : Response)
    (h : res.ok = false) :
    (request base ep (FetchResult.success res)).1
        = Except.error (ReqError.api (errorMessageFor res)) ∧
    (∃ pre post, errorMessageFor res = pre ++ toString res.status ++ post) ∧
    (res.jsonBody = none → errorMessageFor res = statusLine res) ∧
    (∀ body v, res.jsonBody = some body → getField body "detail" = some v →
        truthy v = true →
        ∃ t, errorMessageFor res = statusLine res ++ " - " ++ jsString v ++ t) ∧
    (∀ body v, res.jsonBody = some body → getField body "message" = some v →
        truthy v = true →
        ∃ mid, errorMessageFor res = statusLine res ++ mid ++ " - " ++ jsString v) := by
  refine ⟨?_, ?_, ?_, ?_, ?_⟩
  · have h1 : requestTry res = Except.error (ReqError.api (errorMessageFor res)) := by
      unfold requestTry
      rw [h]
      simp
    simp [request, h1]
  · obtain ⟨t, ht⟩ := errorMessageFor_split res
    refine ⟨"API Error: ", " " ++ res.statusText ++ t, ?_⟩
    rw [ht]
    unfold statusLine
    simp [String.append_assoc]
  · intro hb
    unfold errorMessageFor
    rw [hb]
  · intro body v hb hd ht
    unfold errorMessageFor
    rw [hb]
    have h1 := appendField_truthy (statusLine res) body "detail" v hd ht
    obtain ⟨t2, h2⟩ := appendField_split (appendField (statusLine res) body "detail") body "message"
    refine ⟨t2, ?_⟩
    show appendField (appendField (statusLine res) body "detail") body "message"
        = statusLine res ++ " - " ++ jsString v ++ t2
    rw [h2, h1]
  · intro body v hb hm ht
    unfold errorMessageFor
    rw [hb]
    have h2 := appendField_truthy (appendField (statusLine res) body "detail") body "message" v hm ht
    obtain ⟨t1, h1⟩ := appendField_split (statusLine res) body "detail"
    refine ⟨t1, ?_⟩
    show appendField (appendField (statusLine res) body "detail") body "message"
        = statusLine res ++ t1 ++ " - " ++ jsString v
    rw [h2, h1]

theorem request_rejects_non2xx_witness :
    (request "http://192.168.1.5:8000" "/api/subjects/"
        (FetchResult.success
          { status := 404, statusText := "Not Found",
            jsonBody := some (JSVal.obj [("detail", JSVal.str "Subject not found")]) })).1
      = Except.error (ReqError.api (errorMessageFor
          { status := 404, statusText := "Not Found",
            jsonBody := some (JSVal.obj [("detail", JSVal.str "Subject not found")]) })) :=
  (request_rejects_non2xx _ _ _ (by decide)).1

/-- Claim C7: the request helper never retries: every invocation performs
exactly one fetch of the constructed URL, its settled result is exactly the
outcome of the single try block (so any network or JSON-parse error is
rethrown to the caller unchanged), and every rethrow is preceded by a log
event. -/
theorem request_single_fetch (base ep : String) (f : FetchResult) :
    (request base ep f).2.filter Event.isFetched = [Event.fetched (base ++ ep)] ∧
    (request base ep f).2.countP Event.isFetched = 1 ∧
    (request base ep f).1 = requestTryFull f ∧
    (∀ e, (request base ep f).1 = Except.error e →
        Event.logged ∈ (request base ep f).2) := by
  cases f with
  | error m =>
    refine ⟨?_, ?_, ?_, ?_⟩
    · simp [request, Event.isFetched]
    · simp [request, Event.isFetched]
    · rfl
    · intro e he
      simp [request]
  | success res =>
    cases hr : requestTry res with
    | ok v =>
      refine ⟨?_, ?_, ?_, ?_⟩
      · simp [request, hr, Event.isFetched]
      · simp [request, hr, Event.isFetched]
      · simp [request, hr, requestTryFull]
      · intro e he
        simp [request, hr] at he
    | error err =>
      refine ⟨?_, ?_, ?_, ?_⟩
      · simp [request, hr, Event.isFetched]
      · simp [request, hr, Event.isFetched]
      · simp [request, hr, requestTryFull]
      · intro e he
        simp [request, hr]

theorem request_single_fetch_witness :
    Event.logged ∈ (request "http://192.168.1.5:8000" "/api/rubrics/"
        (FetchResult.error "Network request failed")).2 :=
  (request_single_fetch _ _ _).2.2.2 (ReqError.network "Network request failed") rfl

/-- Claim C8: a 204 No Content response resolves to an empty object without
any attempt to parse the body (even an unparseable body succeeds), and any
other 2xx response whose body parses resolves with the parsed JSON body. -/
theorem request_204_and_2xx (base ep : String) (res : Response) :
    (res.status = 204 →
        (request base ep (FetchResult.success res)).1 = Except.ok (JSVal.obj [])) ∧
    (res.ok = true → res.status ≠ 204 → ∀ v, res.jsonBody = some v →
        (request base ep (FetchResult.success res)).1 = Except.ok v) := by
  constructor
  · intro h204
    have hok : res.ok = true := by
      unfold Response.ok
      rw [h204]
      decide
    have h1 : requestTry res = Except.ok (JSVal.obj []) := by
      unfold requestTry
      rw [hok, h204]
      simp
    simp [request, h1]
  · intro hok h204 v hv
    have h1 : requestTry res = Except.ok v := by
      unfold requestTry
      rw [hok, hv]
      simp [h204]
    simp [request, h1]

theorem request_204_and_2xx_witness :
    (request "http://192.168.1.5:8000" "/api/subjects/3"
        (FetchResult.success { status := 204, statusText := "No Content", jsonBody := none })).1
      = Except.ok (JSVal.obj []) :=
  (request_204_and_2xx _ _ _).1 rfl

/-- Claim C2 counterexample: with the Bloom's modal open on topic 7 and the
Knowledge slider moved from 40 to 45 (total 105, not 100), pressing Save
still sends updateTopicSyllabus: the handler performs no sum check. -/
theorem bloom_save_ignores_weight_sum :
    BloomDistribution.total
        { knowledge := 45, comprehension := 20, application := 20,
          analysis := 10, synthesis := 5, evaluation := 5 } ≠ 100 ∧
    handleSaveSyllabus (some 7)
        { knowledge := 45, comprehension := 20, application := 20,
          analysis := 10, synthesis := 5, evaluation := 5 }
      = SaveSyllabusResult.saved 7
          { knowledge := 45, comprehension := 20, application := 20,
            analysis := 10, synthesis := 5, evaluation := 5 } := by
  exact ⟨by decide, rfl⟩

/-- Claim C2 as amended: pressing Save in the Bloom's Taxonomy modal sends
the syllabus update whenever a topic is active, for every weight
assignment, whatever its sum; only a missing active topic prevents the
call.  (No sum-to-100 validation exists in the handler or the modal.) -/
theorem bloom_save_unconditional (tid : Nat) (d : BloomDistribution) :
    handleSaveSyllabus (some tid) d = SaveSyllabusResult.saved tid d ∧
    handleSaveSyllabus none d = SaveSyllabusResult.noTopic :=
  ⟨rfl, rfl⟩

/-- Claim C3: a vetting submission with no selected Course Outcome produces
a validation alert and never reaches submitVetting; submitVetting is called
only with at least one CO selected, and on reject only with a rejection
reason chosen and feedback of length at least five. -/
theorem vetting_submit_requires_co (s : VetState) :
    (s.selectedCos = [] →
        handleSubmit s = SubmitResult.alertSelectAction ∨
        handleSubmit s = SubmitResult.alertNeedCo) ∧
    (∀ p, handleSubmit s = SubmitResult.submitted p →
        s.selectedCos ≠ [] ∧ p.coMappings = s.selectedCos ∧
        (s.action = some VetAction.reject →
            s.rejectionReason ≠ none ∧ 5 ≤ s.feedback.length)) := by
  cases ha : s.action with
  | none =>
    constructor
    · intro hcs
      left
      simp [handleSubmit, ha]
    · intro p hp
      simp [handleSubmit, ha] at hp
  | some a =>
    constructor
    · intro hcs
      right
      simp [handleSubmit, ha, hcs]
    · intro p hp
      simp only [handleSubmit, ha] at hp
      by_cases h0 : s.selectedCos.length = 0
      · rw [if_pos h0] at hp
        cases hp
      · rw [if_neg h0] at hp
        by_cases h1 : a = VetAction.reject ∧ s.rejectionReason = none
        · rw [if_pos h1] at hp
          cases hp
        · rw [if_neg h1] at hp
          by_cases h2 : a = VetAction.reject ∧ (s.feedback = "" ∨ s.feedback.length < 5)
          · rw [if_pos h2] at hp
            cases hp
          · rw [if_neg h2] at hp
            cases hp
            refine ⟨?_, rfl, ?_⟩
            · intro hnil
              exact h0 (by rw [hnil]; rfl)
            · intro har
              injection har with har
              constructor
              · intro hrn
                exact h1 ⟨har, hrn⟩
              · by_cases hf : s.feedback.length < 5
                · exact absurd ⟨har, Or.inr hf⟩ h2
                · omega

theorem vetting_submit_requires_co_witness :
    handleSubmit
        { action := some VetAction.approve, selectedCos := [],
          rejectionReason := none, feedback := "" }
      = SubmitResult.alertSelectAction ∨
    handleSubmit
        { action := some VetAction.approve, selectedCos := [],
          rejectionReason := none, feedback := "" }
      = SubmitResult.alertNeedCo :=
  (vetting_submit_requires_co _).1 rfl

/-- Claim C5: pressing Save Rubric with an all-whitespace (trimmed-empty)
name shows an error alert and does not call createRubric; createRubric is
only ever called with the trimmed name, which is then non-empty. -/
theorem create_rubric_requires_name (f : RubricForm) :
    (jsTrim f.rubricName = "" →
        handleCreateRubric f = CreateRubricResult.alertNameRequired) ∧
    (∀ p, handleCreateRubric f = CreateRubricResult.created p →
        p.name = jsTrim f.rubricName ∧ p.name ≠ "") := by
  constructor
  · intro h
    simp [handleCreateRubric, h]
  · intro p hp
    by_cases h : jsTrim f.rubricName = ""
    · simp [handleCreateRubric, h] at hp
    · simp only [handleCreateRubric, if_neg h] at hp
      cases hp
      exact ⟨rfl, h⟩

theorem create_rubric_requires_name_witness :
    handleCreateRubric
        { rubricName := "   ", examType := "midterm", duration := "60",
          mcqCount := 5, mcqMarks := "2", shortCount := 3, shortMarks := "5",
          essayCount := 2, essayMarks := "10" }
      = CreateRubricResult.alertNameRequired :=
  (create_rubric_requires_name _).1 (by decide)

/-- Claim C4: the generation poller runs at a fixed 2-second interval; at
any polling step whose polled status is completed or failed both intervals
are cleared and no later element of the poll stream is ever processed,
while any other status leaves the two intervals untouched; the training
poller runs at 3 seconds and issues a fetch exactly when the current status
is one of its active states. -/
theorem generation_polling_terminal_states (s : GenScreenState) (st : String)
    (ps : List (Option String)) :
    genPollIntervalMs = 2000 ∧
    trainingPollIntervalMs = 3000 ∧
    ((st = "completed" ∨ st = "failed") →
        (pollTick s (some st)).timers.pollActive = false ∧
        (pollTick s (some st)).timers.timerActive = false ∧
        runPolls (pollTick s (some st)) ps = (pollTick s (some st), 0)) ∧
    (st ≠ "completed" → st ≠ "failed" → (pollTick s (some st)).timers = s.timers) ∧
    (∀ q : String, trainingTickPolls (some q) = true ↔ q ∈ trainingActiveStates) := by
  refine ⟨rfl, rfl, ?_, ?_, ?_⟩
  · intro hterm
    rcases hterm with hc | hf
    · subst hc
      refine ⟨rfl, rfl, ?_⟩
      cases ps with
      | nil => rfl
      | cons p ps2 => rfl
    · subst hf
      refine ⟨rfl, rfl, ?_⟩
      cases ps with
      | nil => rfl
      | cons p ps2 => rfl
  · intro h1 h2
    simp [pollTick, h1, h2]
  · intro q
    show trainingActiveStates.contains q = true ↔ q ∈ trainingActiveStates
    exact List.elem_iff

theorem generation_polling_terminal_states_witness :
    (pollTick startPollingState (some "completed")).timers.pollActive = false ∧
    (pollTick startPollingState (some "completed")).timers.timerActive = false ∧
    runPolls (pollTick startPollingState (some "completed")) [some "pending"]
      = (pollTick startPollingState (some "completed"), 0) :=
  (generation_polling_terminal_states startPollingState "completed" [some "pending"]).2.2.1
    (Or.inl rfl)

/-- Claim C6: leaving the generating flow always clears both intervals:
the unmount cleanup clears them, a completed poll clears them and moves to
the complete view, and Try Again after a failure clears them and returns
to the select view; in each case no further poll callback ever runs. -/
theorem generation_timers_never_leak (s : GenScreenState) (ps : List (Option String)) :
    ((unmountCleanup s).timers.pollActive = false ∧
      (unmountCleanup s).timers.timerActive = false ∧
      runPolls (unmountCleanup s) ps = (unmountCleanup s, 0)) ∧
    ((pollTick s (some "completed")).view = GenView.complete ∧
      (pollTick s (some "completed")).timers.pollActive = false ∧
      (pollTick s (some "completed")).timers.timerActive = false ∧
      runPolls (pollTick s (some "completed")) ps = (pollTick s (some "completed"), 0)) ∧
    ((tryAgainPress s).view = GenView.select ∧
      (tryAgainPress s).timers.pollActive = false ∧
      (tryAgainPress s).timers.timerActive = false ∧
      runPolls (tryAgainPress s) ps = (tryAgainPress s, 0)) := by
  refine ⟨⟨rfl, rfl, ?_⟩, ⟨rfl, rfl, rfl, ?_⟩, ⟨rfl, rfl, rfl, ?_⟩⟩ <;>
    cases ps with
    | nil => rfl
    | cons p ps2 => rfl

/-- Claim C9: extractQuestionTextFromAny is total: on every JavaScript
value (null, undefined, booleans, numbers, strings including ones holding
embedded or malformed JSON, arrays and arbitrarily nested objects) it
terminates with a string, and on every falsy input it returns the
placeholder No question text. -/
theorem extract_question_text_total (v : JSVal) :
    (∃ s : String, extractQuestionTextFromAny v = s) ∧
    (truthy v = false → extractQuestionTextFromAny v = "No question text") := by
  constructor
  · exact ⟨extractQuestionTextFromAny v, rfl⟩
  · intro hv
    rw [extractQuestionTextFromAny.eq_def]
    split
    · rfl
    · next hcond => exact absurd hv hcond

theorem extract_question_text_total_witness :
    extractQuestionTextFromAny JSVal.null = "No question text" :=
  (extract_question_text_total JSVal.null).2 rfl

/-- Claim C10: when every fetched batch has progress at most 100, the
Active tab (progress below 100) and the History tab (progress exactly 100)
are disjoint and together cover the whole batch list, so each batch is
shown under exactly one tab. -/
theorem batch_tabs_partition (l : List Batch) (h : ∀ b ∈ l, b.progress ≤ 100) :
    (activeBatches l).length + (historyBatches l).length = l.length ∧
    ∀ b ∈ l, (b ∈ activeBatches l ∧ b ∉ historyBatches l) ∨
        (b ∈ historyBatches l ∧ b ∉ activeBatches l) := by
  constructor
  · have key : ∀ m : List Batch, (∀ b ∈ m, b.progress ≤ 100) →
        (activeBatches m).length + (historyBatches m).length = m.length := by
      intro m
      induction m with
      | nil => intro _; simp [activeBatches, historyBatches]
      | cons x xs ih =>
        intro hm
        have hx := hm x (List.mem_cons_self x xs)
        have ih2 := ih (fun b hb => hm b (List.mem_cons_of_mem _ hb))
        by_cases hlt : x.progress < 100
        · have hne : ¬(x.progress = 100) := by omega
          simp only [activeBatches, historyBatches, List.filter_cons] at ih2 ⊢
          simp [hlt, hne]
          omega
        · have heq : x.progress = 100 := by omega
          simp only [activeBatches, historyBatches, List.filter_cons] at ih2 ⊢
          simp [hlt, heq]
          omega
    exact key l h
  · intro b hb
    have hble := h b hb
    by_cases hlt : b.progress < 100
    · left
      constructor
      · simp only [activeBatches, List.mem_filter]
        exact ⟨hb, by simpa using hlt⟩
      · simp only [historyBatches, List.mem_filter]
        intro hc
        have := hc.2
        simp at this
        omega
    · right
      have heq : b.progress = 100 := by omega
      constructor
      · simp only [historyBatches, List.mem_filter]
        exact ⟨hb, by simpa using heq⟩
      · simp only [activeBatches, List.mem_filter]
        intro hc
        have := hc.2
        simp at this
        omega

theorem batch_tabs_partition_witness :
    (activeBatches [{ id := 1, progress := 50 }, { id := 2, progress := 100 }]).length
      + (historyBatches [{ id := 1, progress := 50 }, { id := 2, progress := 100 }]).length
      = ([{ id := 1, progress := 50 }, { id := 2, progress := 100 }] : List Batch).length :=
  (batch_tabs_partition _ (by decide)).1
